import Mathlib

/-!
Verification of the Cloudflare KV worker repository.

This file shallowly embeds the claim-relevant parts of the source:

* `src/unnamed/part_007` — the `D1KVNamespace` class (KV-over-SQLite emulation):
  `get` (single and batch), `getWithMetadata` (single and batch), `put`,
  `delete`, `list`, together with its helpers `getExpiration`, `parseCursor`
  and `createCursor`.  The SQLite table `kv_store` (schema in
  `apps/api-d1/migrations/001_create_kv_table.sql`, `key TEXT PRIMARY KEY`)
  is modelled as a list of rows in physical (rowid) order; the SQL
  `WHERE` / `ORDER BY` / `LIMIT` / `OFFSET` clauses become list operations,
  `LIKE` is modelled with SQLite's default semantics (ASCII-case-insensitive,
  with `_` and `%` wildcards in the pattern).
* `src/src/index.ts` — the `hmacAuth` middleware, the valibot request
  schemas (`putRequestSchema`, `postRequestSchema`, `bulkWritePairSchema`,
  `bulkWriteRequestSchema`), and the `POST /kv/bulk` handler with its
  `writeWithRetry` retry loop.

JavaScript builtins used by that code (`Number.parseInt`, `String.includes`,
`atob` / `btoa`, `JSON.parse` / `JSON.stringify`, `Map.set`, truthiness,
destructuring) are embedded explicitly below.
-/

/-! ## JavaScript primitive semantics -/

/-- Truthiness of an optional JS string (absent `undefined` and the empty
string are falsy, every other string is truthy). -/
def jsTruthy : Option String → Bool
  | none => false
  | some s => s ≠ ""

/-- JS `String.prototype.includes(pat)`: substring containment test,
used by the retry loop as `errorMessage.includes('429')`. -/
def jsIncludes (s pat : String) : Bool :=
  (List.range (s.length + 1)).any fun i => ((s.drop i).take pat.length) = pat

/-- ASCII decimal digit test. -/
def isDigitChar (c : Char) : Bool := '0' ≤ c ∧ c ≤ '9'

/-- Numeric value of an ASCII digit. -/
def digitVal (c : Char) : Nat := c.toNat - '0'.toNat

/-- JS `Number.parseInt(s, 10)`: skip leading whitespace, optional sign,
then the longest run of decimal digits; `none` models `NaN` (no digits). -/
def jsParseInt (s : String) : Option Int :=
  let cs := s.toList.dropWhile (fun c => c = ' ' ∨ c = '\t' ∨ c = '\n' ∨ c = '\r')
  let (sign, cs) : Int × List Char :=
    match cs with
    | '-' :: rest => (-1, rest)
    | '+' :: rest => (1, rest)
    | rest => (1, rest)
  let digits := cs.takeWhile isDigitChar
  if digits = [] then none
  else some (sign * (digits.foldl (fun acc c => acc * 10 + (digitVal c : Int)) (0 : Int)))

/-! ## JS `Map` (string-keyed), as used by the batch read paths.
`Map.set` replaces the value of an existing key in place (keeping insertion
order) and appends new keys; `Map.get` returns the stored value or
`undefined` (here `none`). -/

/-- JS `Map.set`. -/
def mapSet {α : Type} : List (String × α) → String → α → List (String × α)
  | [], k, v => [(k, v)]
  | (k', v') :: rest, k, v =>
      if k' = k then (k, v) :: rest else (k', v') :: mapSet rest k v

/-- JS `Map.get`. -/
def mapGet {α : Type} : List (String × α) → String → Option α
  | [], _ => none
  | (k', v') :: rest, k => if k' = k then some v' else mapGet rest k

/-! ## SQLite `LIKE` (default, no `ESCAPE`): ASCII-case-insensitive,
`_` matches any single character, `%` matches any run of characters. -/

/-- ASCII lower-casing, as SQLite's default `LIKE` applies to A–Z. -/
def asciiLower (c : Char) : Char :=
  if 'A' ≤ c ∧ c ≤ 'Z' then Char.ofNat (c.toNat + 32) else c

/-- One pattern character against one text character. -/
def likeChar (p c : Char) : Bool := asciiLower p = asciiLower c

/-- SQLite `LIKE` matcher on character lists (pattern, then text). -/
def likeMatch : List Char → List Char → Bool
  | [], [] => true
  | [], _ :: _ => false
  | '%' :: ps, s =>
      likeMatch ps s ||
        (match s with
         | [] => false
         | _ :: s' => likeMatch ('%' :: ps) s')
  | '_' :: ps, _ :: s => likeMatch ps s
  | '_' :: _, [] => false
  | p :: ps, c :: s => likeChar p c && likeMatch ps s
  | _ :: _, [] => false
  termination_by p s => (s.length, p.length)

/-- SQLite `x LIKE pat` on strings. -/
def likeStr (pat s : String) : Bool := likeMatch pat.toList s.toList

/-! ## Base64: JS `btoa` / `atob` (the latter per the forgiving-base64
decode algorithm of the WHATWG infra standard). -/

/-- The base64 alphabet. -/
def b64Chars : List Char :=
  "ABCDEFGHIJKLMNOPQRSTUVWXYZabcdefghijklmnopqrstuvwxyz0123456789+/".toList

/-- Character for a 6-bit group. -/
def b64Char (n : Nat) : Char := b64Chars.getD n 'A'

/-- Index of a base64 alphabet character, `none` for anything else. -/
def b64Index (c : Char) : Option Nat := b64Chars.findIdx? (· = c)

/-- Encode a byte list (values < 256) in chunks of three. -/
def btoaBytes : List Nat → List Char
  | [] => []
  | [b1] => [b64Char (b1 / 4), b64Char (b1 % 4 * 16), '=', '=']
  | [b1, b2] =>
      [b64Char (b1 / 4), b64Char (b1 % 4 * 16 + b2 / 16), b64Char (b2 % 16 * 4), '=']
  | b1 :: b2 :: b3 :: rest =>
      b64Char (b1 / 4) :: b64Char (b1 % 4 * 16 + b2 / 16) ::
        b64Char (b2 % 16 * 4 + b3 / 64) :: b64Char (b3 % 64) :: btoaBytes rest

/-- JS `btoa` (on latin-1 strings; the code only ever feeds it ASCII JSON). -/
def btoaJS (s : String) : String := String.mk (btoaBytes (s.toList.map Char.toNat))

/-- Decode a list of 6-bit groups into bytes (forgiving-base64 step:
a trailing group of one character is invalid, trailing bits are discarded). -/
def atobDecode : List Nat → Option (List Nat)
  | [] => some []
  | [_] => none
  | [a, b] => some [a * 4 + b / 16]
  | [a, b, c] => some [a * 4 + b / 16, b % 16 * 16 + c / 4]
  | a :: b :: c :: d :: rest =>
      (atobDecode rest).map
        (fun t => (a * 4 + b / 16) :: (b % 16 * 16 + c / 4) :: (c % 4 * 64 + d) :: t)

/-- JS `atob`: forgiving-base64 decode; `none` models the thrown
`InvalidCharacterError`. -/
def atobJS (s : String) : Option String :=
  let cs := s.toList.filter fun c => ¬(c = ' ' ∨ c = '\t' ∨ c = '\n' ∨ c = '\x0c' ∨ c = '\r')
  let cs :=
    if cs.length % 4 = 0 then
      match cs.reverse with
      | '=' :: '=' :: r => r.reverse
      | '=' :: r => r.reverse
      | _ => cs
    else cs
  if cs.length % 4 = 1 then none
  else
    match cs.mapM b64Index with
    | none => none
    | some idxs =>
        (atobDecode idxs).map fun bytes => String.mk (bytes.map Char.ofNat)

/-! ## JSON values, `JSON.parse` and `JSON.stringify`.

Rationals are built with `mkRat` only (integer mantissa over a power of
ten), keeping every definition kernel-reducible. -/

/-- A JavaScript JSON value. -/
inductive JSVal where
  | null
  | bool (b : Bool)
  | num (q : Rat)
  | str (s : String)
  | arr (elems : List JSVal)
  | obj (fields : List (String × JSVal))

/-- Integer as a rational. -/
def intRat (i : Int) : Rat := mkRat i 1

/-- Property lookup on a parsed JSON object: `JSON.parse` lets a later
duplicate key overwrite an earlier one, so the last binding wins. -/
def objGet (fields : List (String × JSVal)) (k : String) : Option JSVal :=
  (fields.filter (·.1 = k)).getLast?.map (·.2)

/-- JSON whitespace. -/
def jsWS (c : Char) : Bool := c = ' ' ∨ c = '\t' ∨ c = '\n' ∨ c = '\r'

/-- Skip JSON whitespace. -/
def skipWS (cs : List Char) : List Char := cs.dropWhile jsWS

/-- Hex digit value. -/
def hexVal (c : Char) : Option Nat :=
  if isDigitChar c then some (digitVal c)
  else if 'a' ≤ c ∧ c ≤ 'f' then some (c.toNat - 'a'.toNat + 10)
  else if 'A' ≤ c ∧ c ≤ 'F' then some (c.toNat - 'A'.toNat + 10)
  else none

/-- Parse a JSON string body (after the opening quote), with escapes. -/
def parseStrBody : Nat → List Char → Option (String × List Char)
  | 0, _ => none
  | _, [] => none
  | fuel + 1, c :: rest =>
    if c = '"' then some ("", rest)
    else if c = '\\' then
      match rest with
      | [] => none
      | e :: rest2 =>
        let cont := fun (decoded : Char) (rem : List Char) =>
          (parseStrBody fuel rem).map fun p => (String.mk (decoded :: p.1.toList), p.2)
        match e with
        | '"' => cont '"' rest2
        | '\\' => cont '\\' rest2
        | '/' => cont '/' rest2
        | 'b' => cont '\x08' rest2
        | 'f' => cont '\x0c' rest2
        | 'n' => cont '\n' rest2
        | 'r' => cont '\r' rest2
        | 't' => cont '\t' rest2
        | 'u' =>
          match rest2 with
          | h1 :: h2 :: h3 :: h4 :: rest3 =>
            match hexVal h1, hexVal h2, hexVal h3, hexVal h4 with
            | some a, some b, some c', some d =>
                cont (Char.ofNat (((a * 16 + b) * 16 + c') * 16 + d)) rest3
            | _, _, _, _ => none
          | _ => none
        | _ => none
    else if c.toNat < 32 then none
    else (parseStrBody fuel rest).map fun p => (String.mk (c :: p.1.toList), p.2)

/-- Digit run to a natural number. -/
def digitsToNat (ds : List Char) : Nat := ds.foldl (fun a c => a * 10 + digitVal c) 0

/-- Parse the exponent part of a JSON number (after `e`/`E`). -/
def parseExpPart (cs : List Char) : Option (Int × List Char) :=
  let (es, cs2) : Int × List Char :=
    match cs with
    | '+' :: r => (1, r)
    | '-' :: r => (-1, r)
    | r => (1, r)
  let ds := cs2.takeWhile isDigitChar
  if ds = [] then none
  else some (es * (digitsToNat ds : Int), cs2.dropWhile isDigitChar)

/-- Mantissa and decimal scale to a rational: `m * 10 ^ sc`. -/
def scaledRat (m : Int) (sc : Int) : Rat :=
  if 0 ≤ sc then mkRat (m * (10 : Int) ^ sc.toNat) 1
  else mkRat m ((10 : Nat) ^ (-sc).toNat)

/-- Parse a JSON number (sign, integer part with the leading-zero rule,
optional fraction, optional exponent). -/
def parseNumber (cs : List Char) : Option (Rat × List Char) :=
  let (sgn, cs1) : Int × List Char :=
    match cs with
    | '-' :: r => (-1, r)
    | r => (1, r)
  let intDigits := cs1.takeWhile isDigitChar
  let restA := cs1.dropWhile isDigitChar
  if intDigits = [] then none
  else if 1 < intDigits.length ∧ intDigits.headD '1' = '0' then none
  else
    let step2 : Option (List Char × List Char) :=
      match restA with
      | '.' :: r =>
          let fd := r.takeWhile isDigitChar
          if fd = [] then none else some (fd, r.dropWhile isDigitChar)
      | r => some ([], r)
    match step2 with
    | none => none
    | some (fracDigits, restB) =>
      let step3 : Option (Int × List Char) :=
        match restB with
        | 'e' :: r => parseExpPart r
        | 'E' :: r => parseExpPart r
        | r => some (0, r)
      match step3 with
      | none => none
      | some (ex, restC) =>
          let mant : Int := sgn * (digitsToNat (intDigits ++ fracDigits) : Int)
          some (scaledRat mant (ex - fracDigits.length), restC)

mutual

/-- Parse one JSON value (fuel-indexed recursive descent). -/
def parseVal : Nat → List Char → Option (JSVal × List Char)
  | 0, _ => none
  | fuel + 1, cs =>
    match skipWS cs with
    | [] => none
    | c :: rest =>
      if c = 'n' then
        match rest with
        | 'u' :: 'l' :: 'l' :: r => some (.null, r)
        | _ => none
      else if c = 't' then
        match rest with
        | 'r' :: 'u' :: 'e' :: r => some (.bool true, r)
        | _ => none
      else if c = 'f' then
        match rest with
        | 'a' :: 'l' :: 's' :: 'e' :: r => some (.bool false, r)
        | _ => none
      else if c = '"' then
        (parseStrBody (rest.length + 1) rest).map fun p => (.str p.1, p.2)
      else if c = '[' then
        match skipWS rest with
        | ']' :: r => some (.arr [], r)
        | cs2 => (parseElems fuel cs2).map fun p => (.arr p.1, p.2)
      else if c = '{' then
        match skipWS rest with
        | '}' :: r => some (.obj [], r)
        | cs2 => (parseFields fuel cs2).map fun p => (.obj p.1, p.2)
      else (parseNumber (c :: rest)).map fun p => (.num p.1, p.2)

/-- Parse array elements up to the closing bracket. -/
def parseElems : Nat → List Char → Option (List JSVal × List Char)
  | 0, _ => none
  | fuel + 1, cs =>
    match parseVal fuel cs with
    | none => none
    | some (v, r1) =>
      match skipWS r1 with
      | ',' :: r2 => (parseElems fuel r2).map fun p => (v :: p.1, p.2)
      | ']' :: r2 => some ([v], r2)
      | _ => none

/-- Parse object members up to the closing brace. -/
def parseFields : Nat → List Char → Option (List (String × JSVal) × List Char)
  | 0, _ => none
  | fuel + 1, cs =>
    match skipWS cs with
    | '"' :: r0 =>
      match parseStrBody (r0.length + 1) r0 with
      | none => none
      | some (k, r1) =>
        match skipWS r1 with
        | ':' :: r2 =>
          match parseVal fuel r2 with
          | none => none
          | some (v, r3) =>
            match skipWS r3 with
            | ',' :: r4 => (parseFields fuel r4).map fun p => ((k, v) :: p.1, p.2)
            | '}' :: r4 => some ([(k, v)], r4)
            | _ => none
        | _ => none
    | _ => none

end

/-- JS `JSON.parse`; `none` models the thrown `SyntaxError`. -/
def jsonParse (s : String) : Option JSVal :=
  match parseVal (s.length + 1) s.toList with
  | some (v, rest) => if skipWS rest = [] then some v else none
  | none => none

/-- Hex digit character. -/
def hexDigit (n : Nat) : Char := "0123456789abcdef".toList.getD n '0'

/-- Escape one character for a JSON string literal. -/
def escapeJSONChar (c : Char) : List Char :=
  if c = '"' then ['\\', '"']
  else if c = '\\' then ['\\', '\\']
  else if c = '\n' then ['\\', 'n']
  else if c = '\r' then ['\\', 'r']
  else if c = '\t' then ['\\', 't']
  else if c = '\x08' then ['\\', 'b']
  else if c = '\x0c' then ['\\', 'f']
  else if c.toNat < 32 then
    ['\\', 'u', '0', '0', hexDigit (c.toNat / 16), hexDigit (c.toNat % 16)]
  else [c]

/-- Quote a string as a JSON string literal. -/
def quoteJSON (s : String) : String :=
  "\"" ++ String.mk (s.toList.map escapeJSONChar).flatten ++ "\""

/-- Serialize a JSON number: exact for integers (the only numbers the code
paths under verification serialize are cursor offsets). -/
def ratToJSONString (q : Rat) : String :=
  if q.den = 1 then toString q.num else toString q

mutual

/-- JS `JSON.stringify` (no replacer/indent, as the code calls it). -/
def jsonStringify : JSVal → String
  | .null => "null"
  | .bool true => "true"
  | .bool false => "false"
  | .num q => ratToJSONString q
  | .str s => quoteJSON s
  | .arr xs => "[" ++ stringifyElems xs ++ "]"
  | .obj fs => "\x7b" ++ stringifyFields fs ++ "\x7d"

/-- Comma-joined array elements. -/
def stringifyElems : List JSVal → String
  | [] => ""
  | [x] => jsonStringify x
  | x :: y :: xs => jsonStringify x ++ "," ++ stringifyElems (y :: xs)

/-- Comma-joined object members. -/
def stringifyFields : List (String × JSVal) → String
  | [] => ""
  | [(k, v)] => quoteJSON k ++ ":" ++ jsonStringify v
  | (k, v) :: f :: fs => quoteJSON k ++ ":" ++ jsonStringify v ++ "," ++ stringifyFields (f :: fs)

end

/-! ## The `kv_store` table and the `D1KVNamespace` operations
(`src/unnamed/part_007`). -/

/-- One row of `kv_store` (`key TEXT PRIMARY KEY, value TEXT NOT NULL,
metadata TEXT, expiration INTEGER`); the store keeps rows in physical
(rowid) order, and `INSERT OR REPLACE` appends with a fresh rowid. -/
structure Row where
  key : String
  value : String
  metadata : Option String
  expiration : Option Int
  deriving DecidableEq

/-- The table contents. -/
abbrev Store := List Row

/-- The read-time filter `(expiration IS NULL OR expiration > ?)` where the
bound parameter is `Math.floor(Date.now() / 1000)`. -/
def sqlVisible (now : Int) (r : Row) : Bool :=
  match r.expiration with
  | none => true
  | some e => now < e

/-- The `D1KVOptions` accepted by `put` (the `cacheTtl` member is never read
by the embedded code paths and is omitted). -/
structure D1KVOptions where
  expiration : Option Int
  expirationTtl : Option Int
  metadata : Option JSVal

/-- JS truthiness of an optional number (`undefined` and `0` are falsy). -/
def numTruthy : Option Int → Bool
  | none => false
  | some n => n ≠ 0

/-- JS truthiness of a JSON value. -/
def jsValTruthy : JSVal → Bool
  | .null => false
  | .bool b => b
  | .num q => q ≠ 0
  | .str s => s ≠ ""
  | .arr _ => true
  | .obj _ => true

/-- Helper `getExpiration`: a truthy absolute `expiration` wins, else a
truthy `expirationTtl` is added to the current epoch seconds, else `null`. -/
def getExpiration (now : Int) (o : Option D1KVOptions) : Option Int :=
  if numTruthy (o.bind (·.expiration)) then o.bind (·.expiration)
  else if numTruthy (o.bind (·.expirationTtl)) then
    some (now + ((o.bind (·.expirationTtl)).getD 0))
  else none

/-- `put`: `INSERT OR REPLACE INTO kv_store` — the conflicting row (if any)
is deleted and the new row is appended; truthy metadata is stringified. -/
def putD1 (s : Store) (now : Int) (key value : String) (o : Option D1KVOptions) : Store :=
  let md : Option String :=
    match o.bind (·.metadata) with
    | some m => if jsValTruthy m then some (jsonStringify m) else none
    | none => none
  s.filter (fun r => r.key ≠ key) ++ [⟨key, value, md, getExpiration now o⟩]

/-- `delete`: `DELETE FROM kv_store WHERE key = ?`. -/
def deleteD1 (s : Store) (key : String) : Store :=
  s.filter (fun r => r.key ≠ key)

/-- Single `get`: `SELECT value … WHERE key = ? AND (unexpired)`, `.first()`. -/
def getD1 (s : Store) (key : String) (now : Int) : Option String :=
  (s.find? fun r => r.key == key && sqlVisible now r).map (·.value)

/-- The batch `SELECT … WHERE key IN (…) AND (unexpired)`. -/
def selectIn (s : Store) (keys : List String) (now : Int) : List Row :=
  s.filter fun r => keys.contains r.key && sqlVisible now r

/-- Batch `get`: a JS `Map` seeded with `null` for every requested key, then
overwritten with each returned row's value. -/
def batchGetD1 (s : Store) (keys : List String) (now : Int) : List (String × Option String) :=
  let init := keys.foldl (fun m k => mapSet m k none) []
  (selectIn s keys now).foldl (fun m r => mapSet m r.key (some r.value)) init

/-- Result entry of `getWithMetadata` (`value: string | null`, `metadata`
is the parsed JSON or JS `null`). -/
structure MdEntry where
  value : Option String
  metadata : JSVal

/-- The expression `row.metadata ? JSON.parse(row.metadata) : null` as an
optional value; `.error` models a thrown `SyntaxError`. -/
def metaParseOpt (md : Option String) : Except String (Option JSVal) :=
  match md with
  | none => .ok none
  | some m =>
    if m = "" then .ok none
    else
      match jsonParse m with
      | some v => .ok (some v)
      | none => .error "SyntaxError: JSON.parse"

/-- Same expression where the falsy branch yields JS `null`. -/
def metaParse (md : Option String) : Except String JSVal :=
  (metaParseOpt md).map fun v => v.getD .null

/-- Whether an `Except` is a success. -/
def isOkE {ε α : Type} : Except ε α → Bool
  | .ok _ => true
  | .error _ => false

/-- Single `getWithMetadata`. -/
def getWithMetadataD1 (s : Store) (key : String) (now : Int) : Except String MdEntry :=
  match s.find? (fun r => r.key == key && sqlVisible now r) with
  | none => .ok ⟨none, .null⟩
  | some r =>
    match metaParse r.metadata with
    | .ok md => .ok ⟨some r.value, md⟩
    | .error e => .error e

/-- The row loop of the batch `getWithMetadata` (a thrown `JSON.parse`
error aborts the whole call). -/
def mdLoop : List Row → List (String × MdEntry) → Except String (List (String × MdEntry))
  | [], m => .ok m
  | r :: rest, m =>
    match metaParse r.metadata with
    | .error e => .error e
    | .ok md => mdLoop rest (mapSet m r.key ⟨some r.value, md⟩)

/-- Batch `getWithMetadata`: the `Map` is seeded with
`{value: null, metadata: null}` for every requested key. -/
def batchGetWithMetadataD1 (s : Store) (keys : List String) (now : Int) :
    Except String (List (String × MdEntry)) :=
  mdLoop (selectIn s keys now) (keys.foldl (fun m k => mapSet m k ⟨none, .null⟩) [])

/-! ### Cursors and `list`. -/

/-- `createCursor(offset) = btoa(JSON.stringify({ offset }))`. -/
def createCursor (off : Int) : String :=
  btoaJS (jsonStringify (.obj [("offset", .num (intRat off))]))

/-- `parseCursor`: a missing or falsy cursor, a failing `atob`, or a failing
`JSON.parse` all yield `{ offset: 0 }`; otherwise the parsed JSON value is
returned as-is (whatever it is). -/
def parseCursorJS (cursor : Option String) : JSVal :=
  match cursor with
  | none => .obj [("offset", .num (intRat 0))]
  | some c =>
    if c = "" then .obj [("offset", .num (intRat 0))]
    else
      match atobJS c with
      | none => .obj [("offset", .num (intRat 0))]
      | some d =>
        match jsonParse d with
        | none => .obj [("offset", .num (intRat 0))]
        | some v => v

/-- JS destructuring `const { offset } = v`: throws a `TypeError` on `null`
(or `undefined`); on any other value it is a property lookup, `undefined`
(`none`) for non-objects and missing fields. -/
def jsDestructure (v : JSVal) (field : String) : Except String (Option JSVal) :=
  match v with
  | .null => .error "TypeError: Cannot destructure property"
  | .obj fs => .ok (objGet fs field)
  | _ => .ok none

/-- `list` options (`prefix` is named `pfx` here). -/
structure ListOptions where
  pfx : Option String
  limit : Option Int
  cursor : Option String

/-- An element of `list`'s `keys` array: `expiration` and `metadata` are
only set when the row fields are truthy. -/
structure D1KVListKey where
  name : String
  expiration : Option Int
  metadata : Option JSVal

/-- The `list` result shape. -/
structure D1KVListResult where
  keys : List D1KVListKey
  list_complete : Bool
  cursor : Option String

/-- The rows matching `key LIKE ? || '%' AND (unexpired) ORDER BY key`. -/
def sortedRows (s : Store) (pfx : String) (now : Int) : List Row :=
  List.insertionSort (fun a b : Row => a.key ≤ b.key)
    (s.filter fun r => likeStr (pfx ++ "%") r.key && sqlVisible now r)

/-- `LIMIT ? OFFSET ?` applied to the ordered matching rows (a negative
`LIMIT` means no limit in SQLite; a negative `OFFSET` means zero). -/
def sqlFetch (s : Store) (pfx : String) (now : Int) (limN : Int) (off : Nat) : List Row :=
  let dropped := (sortedRows s pfx now).drop off
  if 0 ≤ limN then dropped.take limN.toNat else dropped

/-- JS `Array.prototype.slice(0, endIdx)`. -/
def jsSlice {α : Type} (l : List α) (endIdx : Int) : List α :=
  if 0 ≤ endIdx then l.take endIdx.toNat
  else l.take ((l.length : Int) + endIdx).toNat

/-- Build one `keys` entry from a row. -/
def rowToItem (r : Row) : Except String D1KVListKey :=
  let e : Option Int :=
    match r.expiration with
    | some v => if v ≠ 0 then some v else none
    | none => none
  match metaParseOpt r.metadata with
  | .ok md => .ok ⟨r.key, e, md⟩
  | .error err => .error err

/-- `list`: default limit 1000 (`options?.limit || 1000`), cursor parsing,
the `limit + 1` fetch, the `slice(0, limit)`, `list_complete = !hasMore`,
and `createCursor(offset + limit)` when more rows exist.  A cursor that
destructures to JS `undefined` or to a non-integer is a `D1` binding error. -/
def listD1 (s : Store) (now : Int) (o : ListOptions) : Except String D1KVListResult :=
  let lim : Int :=
    match o.limit with
    | some l => if l ≠ 0 then l else 1000
    | none => 1000
  let pfx := (o.pfx).getD ""
  match jsDestructure (parseCursorJS o.cursor) "offset" with
  | .error e => .error e
  | .ok none => .error "D1_TYPE_ERROR: Type not supported: undefined"
  | .ok (some v) =>
    match v with
    | .num q =>
      if q.den = 1 then
        let offI : Int := q.num
        let fetched := sqlFetch s pfx now (lim + 1) offI.toNat
        match (jsSlice fetched lim).mapM rowToItem with
        | .error e => .error e
        | .ok items =>
          let hasMore : Bool := (fetched.length : Int) > lim
          .ok ⟨items, !hasMore, if hasMore then some (createCursor (offI + lim)) else none⟩
      else .error "D1_TYPE_ERROR: OFFSET binding is not an integer"
    | _ => .error "D1_TYPE_ERROR: OFFSET binding is not an integer"

/-! ## The worker (`src/src/index.ts`): authentication middleware,
request schemas, and the `POST /kv/bulk` handler. -/

/-- The request data `hmacAuth` inspects. The `body` is the raw request
text (the middleware re-wraps it for downstream handlers). -/
structure AuthRequest where
  method : String
  path : String
  body : String
  authHeader : Option String
  timestamp : Option String
  signature : Option String

/-- Outcome of the middleware: pass to the route, 401, or 500. -/
inductive AuthOutcome where
  | proceed
  | unauthorized (msg : String)
  | serverError (msg : String)

/-- ASCII lower-casing of a string, for the case-insensitive hex
signature comparison (`toLowerCase`). -/
def lowerStr (s : String) : String := String.mk (s.toList.map asciiLower)

/-- Whether the `Authorization` header takes the bearer branch. -/
def bearerHeader : Option String → Bool
  | none => false
  | some a => a.startsWith "Bearer "

/-- The `hmacAuth` middleware.  `hmacHex` abstracts the Web-Crypto
HMAC-SHA256 ( secret, message ↦ lower-case hex digest); the claims proved
below hold for every such function.  `now` is `Date.now()` in ms.
Branches, in source order: the docs/openapi allowlist, the
missing-credentials check, the unconfigured-secret check, the bearer
branch, the signature branch (timestamp window before signature
comparison), and the fallback 401. -/
def hmacAuth (hmacHex : String → String → String) (secretKey : Option String)
    (now : Int) (req : AuthRequest) : AuthOutcome :=
  if req.path = "/api/v1/openapi" ∨ req.path = "/api/v1/docs" ∨ req.path = "/api/v1/" then
    .proceed
  else if ¬jsTruthy req.authHeader ∧ ¬jsTruthy req.signature then
    .unauthorized "Missing authentication. Provide either Authorization header or X-Signature + X-Timestamp headers."
  else if ¬jsTruthy secretKey then
    .serverError "Server authentication not configured"
  else if bearerHeader req.authHeader then
    if (req.authHeader.getD "").drop 7 = secretKey.getD "" then .proceed
    else .unauthorized "Invalid authentication token"
  else if jsTruthy req.signature ∧ jsTruthy req.timestamp then
    let ts := req.timestamp.getD ""
    let expired : Bool :=
      match jsParseInt ts with
      | some t => 300000 < |now - t|
      | none => false
    if expired then
      .unauthorized "Request timestamp expired. Ensure your clock is synchronized."
    else
      let body := if req.method ≠ "GET" ∧ req.method ≠ "DELETE" then req.body else ""
      let message := req.method ++ req.path ++ ts ++ body
      if lowerStr (req.signature.getD "") = lowerStr (hmacHex (secretKey.getD "") message) then
        .proceed
      else .unauthorized "Invalid HMAC signature"
  else .unauthorized "Invalid authentication method"

/-! ### Request schemas (valibot).  Bodies are modelled already shaped
(the field-type checks of `v.object` / `v.number` / `v.string` are the
typing of the structure); the embedded validators are the `v.pipe`
constraints the schemas add on top. -/

/-- An entry of `POST /kv/bulk` (`bulkWritePairSchema`) and, with the same
fields, the bodies of `PUT /kv/:key` / `POST /kv`. -/
structure WritePair where
  key : String
  value : JSVal
  expiration : Option Int
  expirationTtl : Option Int
  metadata : Option (List (String × JSVal))

/-- `bulkWritePairSchema`: key length 1..512; `expiration`, `expirationTtl`
and `metadata` are plain optionals with no further constraint. -/
def validBulkPair (p : WritePair) : Bool :=
  1 ≤ p.key.length ∧ p.key.length ≤ 512

/-- `bulkWriteRequestSchema`: 1..10000 entries, each a valid pair. -/
def validBulkRequest (pairs : List WritePair) : Bool :=
  1 ≤ pairs.length ∧ pairs.length ≤ 10000 ∧ pairs.all validBulkPair

/-- `putRequestSchema` (body of `PUT /kv/:key`; the key arrives as a path
parameter): `expirationTtl` is piped through `v.minValue(60)`. -/
def validPutBody (p : WritePair) : Bool :=
  match p.expirationTtl with
  | some t => 60 ≤ t
  | none => true

/-- `postRequestSchema` (`POST /kv`): key length 1..512 and
`expirationTtl` through `v.minValue(60)`. -/
def validPostBody (p : WritePair) : Bool :=
  (1 ≤ p.key.length ∧ p.key.length ≤ 512) &&
    match p.expirationTtl with
    | some t => 60 ≤ t
    | none => true

/-! ### The bulk write handler and its `writeWithRetry` loop. -/

/-- The options object the handler builds for `KVNamespace.put`
(fields copied only when not `undefined`, which the `Option` carries). -/
structure KVPutOptions where
  expiration : Option Int
  expirationTtl : Option Int
  metadata : Option (List (String × JSVal))

/-- `typeof value === 'object'` (JS: `null`, arrays and objects). -/
def jsTypeofObject : JSVal → Bool
  | .null => true
  | .arr _ => true
  | .obj _ => true
  | _ => false

/-- JS `String(v)` for the primitive values a JSON body can carry. -/
def jsToString : JSVal → String
  | .null => "null"
  | .bool true => "true"
  | .bool false => "false"
  | .num q => ratToJSONString q
  | .str s => s
  | .arr xs => jsonStringify (.arr xs)
  | .obj fs => jsonStringify (.obj fs)

/-- `valueToStore = typeof value === 'object' ? JSON.stringify(value) : String(value)`. -/
def valueToStore (v : JSVal) : String :=
  if jsTypeofObject v then jsonStringify v else jsToString v

/-- One recorded storage call. -/
structure PutCall where
  key : String
  value : String
  options : KVPutOptions

/-- Per-entry outcome entry of the bulk response. -/
structure WriteResult where
  key : String
  success : Bool
  error : Option String

/-- Execution trace of one `writeWithRetry` run: the `put` calls made, the
`setTimeout` delays awaited (in order), and the returned result. -/
structure RetryTrace where
  puts : List PutCall
  delays : List Nat
  result : WriteResult

/-- The `while (attempt < maxRetries)` loop.  `out i` is the backend's
response to the i-th `put` call (`none` = resolved, `some msg` = rejected
with an error whose message is `msg`).  On a message containing `"429"`
with `attempt < maxRetries - 1` the loop sleeps `delay`, doubles it and
retries; any other failure returns at once with that message. -/
def retryLoop (call : PutCall) (out : Nat → Option String) (maxRetries : Nat) :
    Nat → Nat → Nat → RetryTrace
  | 0, _, _ => ⟨[], [], ⟨call.key, false, some "Max retries reached"⟩⟩
  | fuel + 1, attempt, delay =>
    if attempt < maxRetries then
      match out attempt with
      | none => ⟨[call], [], ⟨call.key, true, none⟩⟩
      | some msg =>
        if jsIncludes msg "429" ∧ attempt < maxRetries - 1 then
          let rest := retryLoop call out maxRetries fuel (attempt + 1) (delay * 2)
          ⟨call :: rest.puts, delay :: rest.delays, rest.result⟩
        else ⟨[call], [], ⟨call.key, false, some msg⟩⟩
    else ⟨[], [], ⟨call.key, false, some "Max retries reached"⟩⟩

/-- `writeWithRetry(pair, maxRetries = 3)`: the `.`/`..` key check
short-circuits before any storage call; otherwise the retry loop runs
starting at `attempt = 0`, `delay = 1000`. -/
def writeWithRetry (pair : WritePair) (out : Nat → Option String) : RetryTrace :=
  if pair.key = "." ∨ pair.key = ".." then
    ⟨[], [], ⟨pair.key, false, some "Invalid key"⟩⟩
  else
    let call : PutCall :=
      ⟨pair.key, valueToStore pair.value,
        ⟨pair.expiration, pair.expirationTtl, pair.metadata⟩⟩
    retryLoop call out 3 3 0 1000

/-- The aggregate bulk response (`status` is the HTTP code). -/
structure BulkResponse where
  success : Bool
  total : Nat
  successful : Nat
  failed : Nat
  results : List WriteResult
  status : Nat

/-- The `POST /kv/bulk` handler after validation: `Promise.all` over the
pairs (in order), then the success/failure counts, `success :=
failureCount == 0`, and status 201 or 207. -/
def bulkWrite (pairs : List WritePair) (out : Nat → Nat → Option String) : BulkResponse :=
  let results :=
    (pairs.enum.map fun pi => (writeWithRetry pi.2 (out pi.1)).result)
  let successCount := (results.filter (·.success)).length
  let failureCount := results.length - successCount
  ⟨failureCount = 0, results.length, successCount, failureCount, results,
    if failureCount = 0 then 201 else 207⟩

/-- The metadata a row contributes to a batch `getWithMetadata` entry when
its stored text parses. -/
def mdOf (r : Row) : JSVal :=
  match metaParse r.metadata with
  | .ok v => v
  | .error _ => .null

/-- The pure mirror of `rowToItem` on rows whose metadata parses. -/
def rowToItemOk (r : Row) : D1KVListKey :=
  ⟨r.key,
   (match r.expiration with
    | some v => if v ≠ 0 then some v else none
    | none => none),
   (match metaParseOpt r.metadata with
    | .ok md => md
    | .error _ => none)⟩

/-- Literal-prefix test on character lists (used only to state what the
spec calls "literal prefix", for comparison with the SQL `LIKE` the code
actually performs). -/
def leadList : List Char → List Char → Bool
  | [], _ => true
  | _ :: _, [] => false
  | p :: ps, c :: cs => if p = c then leadList ps cs else false

/-- Literal-prefix test on strings. -/
def isLeadOf (p s : String) : Bool := leadList p.toList s.toList

instance : IsTotal Row (fun a b : Row => a.key ≤ b.key) :=
  ⟨fun a b => le_total a.key b.key⟩

instance : IsTrans Row (fun a b : Row => a.key ≤ b.key) :=
  ⟨fun _ _ _ h1 h2 => le_trans h1 h2⟩

theorem mapGet_mapSet {α : Type} (m : List (String × α)) (k k' : String) (v : α) :
    mapGet (mapSet m k v) k' = if k' = k then some v else mapGet m k' := by
  induction m with
  | nil =>
      by_cases h : k = k'
      · subst h; simp [mapSet, mapGet]
      · simp [mapSet, mapGet, h, Ne.symm h]
  | cons p rest ih =>
      obtain ⟨k₀, v₀⟩ := p
      by_cases h0 : k₀ = k
      · subst h0
        by_cases h : k₀ = k'
        · subst h; simp [mapSet, mapGet]
        · simp [mapSet, mapGet, h, Ne.symm h]
      · by_cases h : k₀ = k'
        · subst h
          simp [mapSet, mapGet, h0, Ne.symm h0]
        · simp [mapSet, mapGet, h0, h, ih]

/-! ## Claim theorems -/

/-- C2: in signature mode (truthy `X-Signature` and `X-Timestamp`, no
`Bearer` authorization, secret configured, path not allowlisted), whenever
the supplied timestamp parses to `t` with `|now - t| > 300000` ms the gate
answers 401 timestamp-expired — for every HMAC function and every supplied
signature value, i.e. before signature verification can admit the request. -/
theorem c2_timestamp_window_before_signature
    (hmacHex : String → String → String) (secret : String) (now t : Int)
    (req : AuthRequest)
    (hpath : ¬(req.path = "/api/v1/openapi" ∨ req.path = "/api/v1/docs" ∨ req.path = "/api/v1/"))
    (hsecret : secret ≠ "")
    (hbearer : bearerHeader req.authHeader = false)
    (hsig : jsTruthy req.signature = true)
    (hts : jsTruthy req.timestamp = true)
    (hparse : jsParseInt (req.timestamp.getD "") = some t)
    (hwin : 300000 < |now - t|) :
    hmacAuth hmacHex (some secret) now req =
      .unauthorized "Request timestamp expired. Ensure your clock is synchronized." := by
  have hsec : jsTruthy (some secret) = true := by simp [jsTruthy, hsecret]
  simp only [hmacAuth, if_neg hpath]
  rw [if_neg (by simp [hsig]), if_neg (by simp [hsec]), if_neg (by simp [hbearer]),
    if_pos (by exact ⟨hsig, hts⟩)]
  rw [hparse]
  simp [hwin]

/-- Closed witness for `c2_timestamp_window_before_signature`. -/
theorem c2_timestamp_window_before_signature_witness :
    hmacAuth (fun _ _ => "deadbeef") (some "secret") 301001
      ⟨"GET", "/api/v1/kv/x", "", none, some "0", some "deadbeef"⟩ =
      .unauthorized "Request timestamp expired. Ensure your clock is synchronized." :=
  c2_timestamp_window_before_signature (fun _ _ => "deadbeef") "secret" 301001 0
    ⟨"GET", "/api/v1/kv/x", "", none, some "0", some "deadbeef"⟩
    (by decide) (by decide) (by decide) (by decide) (by decide) (by decide) (by decide)

/-- C3: per bulk entry with a storable key, at most 3 `put` attempts are
made; the waits between consecutive attempts follow the doubling delay
table 1000 ms, 2000 ms, 4000 ms (one wait fewer than attempts, and only
ever after a failure whose message contains "429"); the final attempt's
outcome is recorded as the entry's result — a non-rate-limit failure or
retry exhaustion records that failure's message. -/
theorem c3_retry_policy (pair : WritePair) (out : Nat → Option String)
    (hkey : ¬(pair.key = "." ∨ pair.key = "..")) :
    let tr := writeWithRetry pair out
    tr.puts.length ≤ 3 ∧
    1 ≤ tr.puts.length ∧
    tr.delays = [1000, 2000, 4000].take tr.delays.length ∧
    tr.delays.length = tr.puts.length - 1 ∧
    (∀ i, i + 1 < tr.puts.length → ∃ m, out i = some m ∧ jsIncludes m "429" = true) ∧
    (out (tr.puts.length - 1) = none → tr.result = ⟨pair.key, true, none⟩) ∧
    (∀ m, out (tr.puts.length - 1) = some m → tr.result = ⟨pair.key, false, some m⟩) := by
  intro tr
  set call : PutCall :=
    ⟨pair.key, valueToStore pair.value,
      ⟨pair.expiration, pair.expirationTtl, pair.metadata⟩⟩ with hcall
  have htr : tr = retryLoop call out 3 3 0 1000 := by
    simp only [tr, writeWithRetry, if_neg hkey]
  rcases h0 : out 0 with _ | m0
  · have hshape : tr = ⟨[call], [], ⟨pair.key, true, none⟩⟩ := by
      rw [htr]; simp [retryLoop, h0]
    rw [hshape]
    refine ⟨by simp, by simp, by simp, by simp, ?_, fun _ => rfl, ?_⟩
    · intro i hi; simp at hi
    · intro m hm; simp [h0] at hm
  · rcases h429 : jsIncludes m0 "429" with _ | _
    · have hshape : tr = ⟨[call], [], ⟨pair.key, false, some m0⟩⟩ := by
        rw [htr]; simp [retryLoop, h0, h429]
      rw [hshape]
      refine ⟨by simp, by simp, by simp, by simp, ?_, ?_, ?_⟩
      · intro i hi; simp at hi
      · intro h; simp [h0] at h
      · intro m hm; simp [h0] at hm; subst hm; rfl
    · rcases h1 : out 1 with _ | m1
      · have hshape : tr = ⟨[call, call], [1000], ⟨pair.key, true, none⟩⟩ := by
          rw [htr]; simp [retryLoop, h0, h429, h1]
        rw [hshape]
        refine ⟨by simp, by simp, by simp, by simp, ?_, fun _ => rfl, ?_⟩
        · intro i hi
          simp only [List.length_cons, List.length_nil] at hi
          have hz : i = 0 := by omega
          subst hz
          exact ⟨m0, h0, h429⟩
        · intro m hm; simp [h1] at hm
      · rcases h429b : jsIncludes m1 "429" with _ | _
        · have hshape : tr = ⟨[call, call], [1000], ⟨pair.key, false, some m1⟩⟩ := by
            rw [htr]; simp [retryLoop, h0, h429, h1, h429b]
          rw [hshape]
          refine ⟨by simp, by simp, by simp, by simp, ?_, ?_, ?_⟩
          · intro i hi
            simp only [List.length_cons, List.length_nil] at hi
            have hz : i = 0 := by omega
            subst hz
            exact ⟨m0, h0, h429⟩
          · intro h; simp [h1] at h
          · intro m hm; simp [h1] at hm; subst hm; rfl
        · rcases h2 : out 2 with _ | m2
          · have hshape : tr = ⟨[call, call, call], [1000, 2000], ⟨pair.key, true, none⟩⟩ := by
              rw [htr]; simp [retryLoop, h0, h429, h1, h429b, h2]
            rw [hshape]
            refine ⟨by simp, by simp, by simp, by simp, ?_, fun _ => rfl, ?_⟩
            · intro i hi
              simp only [List.length_cons, List.length_nil] at hi
              have hz : i = 0 ∨ i = 1 := by omega
              rcases hz with hz | hz <;> subst hz
              · exact ⟨m0, h0, h429⟩
              · exact ⟨m1, h1, h429b⟩
            · intro m hm; simp [h2] at hm
          · have hshape : tr = ⟨[call, call, call], [1000, 2000], ⟨pair.key, false, some m2⟩⟩ := by
              rw [htr]; simp [retryLoop, h0, h429, h1, h429b, h2]
            rw [hshape]
            refine ⟨by simp, by simp, by simp, by simp, ?_, ?_, ?_⟩
            · intro i hi
              simp only [List.length_cons, List.length_nil] at hi
              have hz : i = 0 ∨ i = 1 := by omega
              rcases hz with hz | hz <;> subst hz
              · exact ⟨m0, h0, h429⟩
              · exact ⟨m1, h1, h429b⟩
            · intro h; simp [h2] at h
            · intro m hm; simp [h2] at hm; subst hm; rfl

/-- Closed witness for `c3_retry_policy`: two rate-limited attempts then a
success, with waits 1000 ms and 2000 ms. -/
theorem c3_retry_policy_witness :
    let pair : WritePair := ⟨"k", .str "v", none, none, none⟩
    let out : Nat → Option String := fun i => if i < 2 then some "KV PUT failed: 429" else none
    let tr := writeWithRetry pair out
    tr.puts.length ≤ 3 ∧ 1 ≤ tr.puts.length ∧
    tr.delays = [1000, 2000, 4000].take tr.delays.length ∧
    tr.delays.length = tr.puts.length - 1 ∧
    (∀ i, i + 1 < tr.puts.length → ∃ m, out i = some m ∧ jsIncludes m "429" = true) ∧
    (out (tr.puts.length - 1) = none → tr.result = ⟨"k", true, none⟩) ∧
    (∀ m, out (tr.puts.length - 1) = some m → tr.result = ⟨"k", false, some m⟩) :=
  c3_retry_policy ⟨"k", .str "v", none, none, none⟩
    (fun i => if i < 2 then some "KV PUT failed: 429" else none) (by decide)

/-- A filter keeps the whole list exactly when every element passes. -/
theorem filter_length_eq_iff_all {α : Type} (p : α → Bool) (l : List α) :
    (l.filter p).length = l.length ↔ ∀ a ∈ l, p a = true := by
  induction l with
  | nil => simp
  | cons a l ih =>
      rcases h : p a with _ | _
      · have hle := List.length_filter_le p l
        simp only [List.filter_cons, h, Bool.false_eq_true, if_false, List.length_cons]
        constructor
        · intro h2; omega
        · intro h2
          have := h2 a (by simp)
          rw [h] at this
          cases this
      · simp only [List.filter_cons, h, if_true, List.length_cons, Nat.add_right_cancel_iff, ih]
        constructor
        · intro h2 b hb
          rcases List.mem_cons.mp hb with hb | hb
          · subst hb; exact h
          · exact h2 b hb
        · intro h2 b hb; exact h2 b (List.mem_cons_of_mem _ hb)

/-- C8: the bulk response reports `success = true` exactly when every entry
succeeded; counters add up (`successful + failed = total = #entries`); the
HTTP status is 201 exactly when no entry failed and is always 201 or 207
(per-entry failures never become a whole-call failure); and on 3 entries of
which exactly one carries the invalid key `"."`, the response is
`total = 3, successful = 2, failed = 1` with status 207. -/
theorem c8_bulk_partial_failure (pairs : List WritePair) (out : Nat → Nat → Option String) :
    let resp := bulkWrite pairs out
    (resp.success = true ↔ ∀ r ∈ resp.results, r.success = true) ∧
    resp.total = pairs.length ∧
    resp.successful + resp.failed = resp.total ∧
    (resp.status = 201 ↔ resp.failed = 0) ∧
    (resp.status = 201 ∨ resp.status = 207) ∧
    bulkWrite
      [⟨"user:1", .str "Alice", none, none, none⟩,
       ⟨".", .str "x", none, none, none⟩,
       ⟨"user:2", .str "Bob", none, none, none⟩] (fun _ _ => none) =
      ⟨false, 3, 2, 1,
        [⟨"user:1", true, none⟩, ⟨".", false, some "Invalid key"⟩, ⟨"user:2", true, none⟩],
        207⟩ := by
  intro resp
  set results := pairs.enum.map (fun pi => (writeWithRetry pi.2 (out pi.1)).result) with hresults
  have h1 : resp.results = results := rfl
  have h2 : resp.success = decide (results.length - (results.filter (·.success)).length = 0) := rfl
  have h3 : resp.total = results.length := rfl
  have h4 : resp.successful = (results.filter (·.success)).length := rfl
  have h5 : resp.failed = results.length - (results.filter (·.success)).length := rfl
  have h6 : resp.status =
      if results.length - (results.filter (·.success)).length = 0 then 201 else 207 := rfl
  have hle : (results.filter (·.success)).length ≤ results.length :=
    List.length_filter_le _ _
  have hlen : results.length = pairs.length := by
    rw [hresults]; simp [List.length_map, List.enum_length]
  refine ⟨?_, ?_, ?_, ?_, ?_, rfl⟩
  · rw [h1, h2, decide_eq_true_eq]
    constructor
    · intro h r hr
      exact (filter_length_eq_iff_all (·.success) results).mp (by omega) r hr
    · intro h
      have := (filter_length_eq_iff_all (·.success) results).mpr h
      omega
  · rw [h3, hlen]
  · rw [h3, h4, h5]; omega
  · rw [h5, h6]
    constructor
    · intro h
      by_contra hne
      rw [if_neg hne] at h
      cases h
    · intro h; rw [if_pos h]
  · rw [h6]
    by_cases h : results.length - (results.filter (·.success)).length = 0
    · left; rw [if_pos h]
    · right; rw [if_neg h]

/-- Every storage call recorded by the retry loop is the one fixed call,
and at least one call is made when the loop starts with fuel and headroom. -/
theorem retryLoop_puts_const (call : PutCall) (out : Nat → Option String)
    (mr : Nat) : ∀ (fuel att dl : Nat),
    (∀ c ∈ (retryLoop call out mr fuel att dl).puts, c = call) ∧
    (att < mr → 1 ≤ fuel → 1 ≤ (retryLoop call out mr fuel att dl).puts.length) := by
  intro fuel
  induction fuel with
  | zero =>
      intro att dl
      exact ⟨by simp [retryLoop], by intro _ h; cases h⟩
  | succ n ih =>
      intro att dl
      by_cases hatt : att < mr
      · rcases hout : out att with _ | msg
        · exact ⟨by simp [retryLoop, hatt, hout], by intro _ _; simp [retryLoop, hatt, hout]⟩
        · by_cases hc : jsIncludes msg "429" = true ∧ att < mr - 1
          · constructor
            · intro c hcm
              simp only [retryLoop, if_pos hatt, hout, if_pos hc, List.mem_cons] at hcm
              rcases hcm with hcm | hcm
              · exact hcm
              · exact (ih (att + 1) (dl * 2)).1 c hcm
            · intro _ _
              simp [retryLoop, hatt, hout, hc]
          · exact ⟨by simp [retryLoop, hatt, hout, hc],
              by intro _ _; simp [retryLoop, hatt, hout, hc]⟩
      · exact ⟨by simp [retryLoop, hatt], by intro h _; exact absurd h hatt⟩

/-- C7 counterexample: a bulk entry carrying `expirationTtl = 30` (below
60) and a body carrying both an absolute expiration and a TTL both pass
validation — `bulkWritePairSchema` has no `minValue(60)` pipe and no schema
enforces mutual exclusion — and the TTL-30 entry reaches the storage
layer's `put` with those options. -/
theorem c7_ttl_counterexample :
    validBulkPair ⟨"k", .str "v", none, some 30, none⟩ = true ∧
    validBulkRequest [⟨"k", .str "v", none, some 30, none⟩] = true ∧
    (writeWithRetry ⟨"k", .str "v", none, some 30, none⟩ (fun _ => none)).puts =
      [⟨"k", "v", ⟨none, some 30, none⟩⟩] ∧
    (30 : Int) < 60 ∧
    validPutBody ⟨"k", .str "v", some 1893456000, some 60, none⟩ = true ∧
    validPostBody ⟨"k", .str "v", some 1893456000, some 60, none⟩ = true := by
  refine ⟨rfl, rfl, ?_, by decide, rfl, rfl⟩
  simp [writeWithRetry, retryLoop, valueToStore, jsTypeofObject, jsToString]

/-- C7 as amended: the 60-second TTL floor is enforced by the single-write
schemas (`putRequestSchema`, `postRequestSchema`) only; a bulk entry's TTL
is passed to `put` unchecked (any valid-keyed bulk entry reaches `put` with
its TTL verbatim); and nothing enforces exclusivity of `expiration` and
`expirationTtl` — when both are given (absolute nonzero), `getExpiration`
uses the absolute expiration. -/
theorem c7_ttl_validation_amended :
    (∀ b : WritePair, ∀ t : Int, validPutBody b = true → b.expirationTtl = some t → 60 ≤ t) ∧
    (∀ b : WritePair, ∀ t : Int, validPostBody b = true → b.expirationTtl = some t → 60 ≤ t) ∧
    (∀ (p : WritePair) (out : Nat → Option String), ¬(p.key = "." ∨ p.key = "..") →
      1 ≤ (writeWithRetry p out).puts.length ∧
      ∀ c ∈ (writeWithRetry p out).puts, c.options.expirationTtl = p.expirationTtl) ∧
    (∀ (now e t : Int) (md : Option JSVal), e ≠ 0 →
      getExpiration now (some ⟨some e, some t, md⟩) = some e) := by
  refine ⟨?_, ?_, ?_, ?_⟩
  · intro b t hv ht
    unfold validPutBody at hv
    rw [ht] at hv
    exact of_decide_eq_true hv
  · intro b t hv ht
    unfold validPostBody at hv
    rw [ht] at hv
    simp only [Bool.and_eq_true, decide_eq_true_eq] at hv
    exact hv.2
  · intro p out hkey
    have h1 := retryLoop_puts_const
      ⟨p.key, valueToStore p.value, ⟨p.expiration, p.expirationTtl, p.metadata⟩⟩ out 3 3 0 1000
    have hw : writeWithRetry p out =
        retryLoop ⟨p.key, valueToStore p.value,
          ⟨p.expiration, p.expirationTtl, p.metadata⟩⟩ out 3 3 0 1000 := by
      simp only [writeWithRetry, if_neg hkey]
    constructor
    · rw [hw]; exact h1.2 (by omega) (by omega)
    · intro c hc
      rw [hw] at hc
      rw [h1.1 c hc]
  · intro now e t md he
    simp [getExpiration, numTruthy, he]

/-- Closed witness for `c7_ttl_validation_amended`. -/
theorem c7_ttl_validation_amended_witness :
    (60 : Int) ≤ 60 ∧
    (60 : Int) ≤ 90 ∧
    (1 ≤ (writeWithRetry ⟨"k", .str "v", none, some 30, none⟩ (fun _ => none)).puts.length ∧
      ∀ c ∈ (writeWithRetry ⟨"k", .str "v", none, some 30, none⟩ (fun _ => none)).puts,
        c.options.expirationTtl = some 30) ∧
    getExpiration 0 (some ⟨some 7, some 30, none⟩) = some 7 :=
  ⟨c7_ttl_validation_amended.1 ⟨"k", .str "v", none, some 60, none⟩ 60 rfl rfl,
   c7_ttl_validation_amended.2.1 ⟨"k", .str "v", none, some 90, none⟩ 90 rfl rfl,
   c7_ttl_validation_amended.2.2.1 ⟨"k", .str "v", none, some 30, none⟩ (fun _ => none) (by decide),
   c7_ttl_validation_amended.2.2.2 0 7 30 none (by decide)⟩

/-- After a replace-style write, a visible appended row is what `get`
finds: every earlier row with the key was filtered away. -/
theorem getD1_filter_append (s : Store) (k v : String) (md : Option String)
    (ex : Option Int) (now : Int)
    (hvis : sqlVisible now ⟨k, v, md, ex⟩ = true) :
    getD1 (s.filter (fun r => r.key ≠ k) ++ [⟨k, v, md, ex⟩]) k now = some v := by
  unfold getD1
  rw [List.find?_append]
  have h1 : List.find? (fun r => r.key == k && sqlVisible now r)
      (s.filter (fun r => r.key ≠ k)) = none := by
    rw [List.find?_eq_none]
    intro x hx
    have hxk : x.key ≠ k := by simpa using (List.mem_filter.mp hx).2
    simp [hxk]
  rw [h1]
  simp [List.find?, hvis]

/-- `get` after a delete of that key always misses. -/
theorem getD1_of_filter_ne (l : Store) (k : String) (now : Int) :
    getD1 (l.filter (fun r => r.key ≠ k)) k now = none := by
  unfold getD1
  have h1 : List.find? (fun r => r.key == k && sqlVisible now r)
      (l.filter (fun r => r.key ≠ k)) = none := by
    rw [List.find?_eq_none]
    intro x hx
    have hxk : x.key ≠ k := by simpa using (List.mem_filter.mp hx).2
    simp [hxk]
  rw [h1]
  rfl

/-- C9: on the relational backend, for a valid key, `put` then `get` (with
the written expiration, if any, not yet elapsed) returns the written value,
and `put` then `delete` then `get` returns absent (`none`). -/
theorem c9_put_get_delete_roundtrip (s : Store) (k v : String) (now wnow : Int)
    (o : Option D1KVOptions)
    (hk : 1 ≤ k.length ∧ k.length ≤ 512 ∧ k ≠ "." ∧ k ≠ "..")
    (hexp : ∀ e, getExpiration wnow o = some e → now < e) :
    getD1 (putD1 s wnow k v o) k now = some v ∧
    getD1 (deleteD1 (putD1 s wnow k v o) k) k now = none := by
  have hvis : ∀ md, sqlVisible now ⟨k, v, md, getExpiration wnow o⟩ = true := by
    intro md
    unfold sqlVisible
    rcases hge : getExpiration wnow o with _ | e
    · rfl
    · simp [hexp e hge]
  constructor
  · simp only [putD1]
    exact getD1_filter_append s k v _ _ now (hvis _)
  · simp only [deleteD1]
    exact getD1_of_filter_ne _ k now

/-- Closed witness for `c9_put_get_delete_roundtrip`. -/
theorem c9_put_get_delete_roundtrip_witness :
    getD1 (putD1 [] 0 "user:1" "Alice" none) "user:1" 5 = some "Alice" ∧
    getD1 (deleteD1 (putD1 [] 0 "user:1" "Alice" none) "user:1") "user:1" 5 = none :=
  c9_put_get_delete_roundtrip [] "user:1" "Alice" 5 0 none
    ⟨by decide, by decide, by decide, by decide⟩
    (fun e he => by simp [getExpiration, numTruthy] at he)

/-- C10 counterexample: the cursor `"bnVsbA=="` (valid base64 of the valid
JSON text `null`) escapes `parseCursor`'s catch — `JSON.parse` returns
`null` without throwing — and the destructuring `const { offset } = …` then
throws a `TypeError`, so `list` errors instead of behaving as if no cursor
had been supplied (which returns an ordinary empty page). -/
theorem c10_cursor_counterexample :
    listD1 [] 0 ⟨none, none, some "bnVsbA=="⟩ =
      .error "TypeError: Cannot destructure property" ∧
    listD1 [] 0 ⟨none, none, none⟩ = .ok ⟨[], true, none⟩ := ⟨rfl, rfl⟩

/-- C10 as amended: a cursor that is empty, that is not acceptable base64
(`atob` throws), or whose decoded text fails JSON parsing is caught and the
call behaves exactly as with no cursor (offset 0); but a cursor whose
decoded text is valid JSON that is not an object with an integer `offset`
property is not caught and makes the call error (see the counterexample). -/
theorem c10_cursor_fallback_amended (s : Store) (now : Int) (o : ListOptions) (c : String)
    (hc : o.cursor = some c)
    (hbad : c = "" ∨ atobJS c = none ∨ (∃ d, atobJS c = some d ∧ jsonParse d = none)) :
    listD1 s now o = listD1 s now ⟨o.pfx, o.limit, none⟩ := by
  have hobj : parseCursorJS (some c) = .obj [("offset", .num (intRat 0))] := by
    simp only [parseCursorJS]
    by_cases hce : c = ""
    · rw [if_pos hce]
    · rw [if_neg hce]
      rcases hbad with h | h | ⟨d, hd, hj⟩
      · exact absurd h hce
      · rw [h]
      · rw [hd]; simp [hj]
  have hnone : parseCursorJS none = JSVal.obj [("offset", JSVal.num (intRat 0))] := rfl
  simp only [listD1, hc, hobj, hnone]

/-- Closed witness for `c10_cursor_fallback_amended`: `"!!!"` is rejected
by `atob`, so the listing falls back to offset 0. -/
theorem c10_cursor_fallback_amended_witness :
    listD1 [] 0 ⟨none, none, some "!!!"⟩ = listD1 [] 0 ⟨none, none, none⟩ :=
  c10_cursor_fallback_amended [] 0 ⟨none, none, some "!!!"⟩ "!!!" rfl
    (Or.inr (Or.inl rfl))

/-- Seeding a `Map` with a constant for every requested key. -/
theorem mapGet_foldl_init {α : Type} (K : List String) (c : α)
    (m₀ : List (String × α)) (k : String) :
    mapGet (K.foldl (fun m k' => mapSet m k' c) m₀) k =
      if k ∈ K then some c else mapGet m₀ k := by
  induction K generalizing m₀ with
  | nil => simp
  | cons k0 K ih =>
      simp only [List.foldl_cons]
      rw [ih]
      by_cases h : k ∈ K
      · simp [h]
      · by_cases h0 : k = k0
        · subst h0; simp [h, mapGet_mapSet]
        · simp [h, h0, mapGet_mapSet]

/-- Overwriting a `Map` with one value per row, for rows with distinct
keys: the result at `k` is the found row's value, else the seed's. -/
theorem mapGet_foldl_rows {α : Type} (f : Row → α) (rows : List Row)
    (m₀ : List (String × α)) (k : String)
    (hnd : (rows.map (·.key)).Nodup) :
    mapGet (rows.foldl (fun m r => mapSet m r.key (f r)) m₀) k =
      match rows.find? (fun r => r.key == k) with
      | some r => some (f r)
      | none => mapGet m₀ k := by
  induction rows generalizing m₀ with
  | nil => simp
  | cons r rows ih =>
      simp only [List.map_cons, List.nodup_cons] at hnd
      obtain ⟨hnotin, hnd'⟩ := hnd
      simp only [List.foldl_cons]
      rw [ih _ hnd']
      by_cases hrk : r.key = k
      · have hnone : rows.find? (fun r' => r'.key == k) = none := by
          rw [List.find?_eq_none]
          intro x hx hbx
          have hxk : x.key = k := by simpa using hbx
          apply hnotin
          have hrx : r.key = x.key := by rw [hrk, hxk]
          rw [hrx]
          exact List.mem_map_of_mem _ hx
        rw [hnone, List.find?_cons_of_pos _ (by simp [hrk])]
        rw [mapGet_mapSet]
        simp [hrk]
      · rw [List.find?_cons_of_neg _ (by simp [hrk])]
        cases hf : rows.find? (fun r' => r'.key == k) with
        | some r' => rfl
        | none =>
            rw [mapGet_mapSet, if_neg (fun h : k = r.key => hrk h.symm)]

/-- The filtered batch select keeps key distinctness. -/
theorem selectIn_keys_nodup (s : Store) (K : List String) (now : Int)
    (hnd : (s.map (·.key)).Nodup) : ((selectIn s K now).map (·.key)).Nodup :=
  hnd.sublist ((List.filter_sublist s).map _)

/-- The result shape shared by both batch read paths: keyed seeding plus
row overwrite, for a store with unique keys. -/
theorem batch_map_spec {α : Type} (f : Row → α) (dflt : α) (s : Store)
    (K : List String) (now : Int) (hnd : (s.map (·.key)).Nodup) :
    (∀ k, (mapGet ((selectIn s K now).foldl (fun m r => mapSet m r.key (f r))
        (K.foldl (fun m k' => mapSet m k' dflt) [])) k).isSome = true ↔ k ∈ K) ∧
    (∀ k r, r ∈ s → r.key = k → sqlVisible now r = true → k ∈ K →
      mapGet ((selectIn s K now).foldl (fun m r => mapSet m r.key (f r))
        (K.foldl (fun m k' => mapSet m k' dflt) [])) k = some (f r)) ∧
    (∀ k, k ∈ K → (∀ r ∈ s, r.key = k → sqlVisible now r = false) →
      mapGet ((selectIn s K now).foldl (fun m r => mapSet m r.key (f r))
        (K.foldl (fun m k' => mapSet m k' dflt) [])) k = some dflt) := by
  have hndrows := selectIn_keys_nodup s K now hnd
  refine ⟨?_, ?_, ?_⟩
  · intro k
    rw [mapGet_foldl_rows _ _ _ _ hndrows]
    cases hf : (selectIn s K now).find? (fun r => r.key == k) with
    | some r =>
        simp only [Option.isSome_some, true_iff]
        have hmem := List.mem_of_find?_eq_some hf
        have hks : r.key = k := by simpa using List.find?_some hf
        have hp := (List.mem_filter.mp hmem).2
        have : K.contains r.key = true := by
          simpa using (Bool.and_eq_true_iff.mp hp).1
        rw [hks] at this
        simpa using this
    | none =>
        rw [mapGet_foldl_init]
        by_cases hk : k ∈ K <;> simp [hk, mapGet]
  · intro k r hr hrk hvis hkK
    rw [mapGet_foldl_rows _ _ _ _ hndrows]
    have hrin : r ∈ selectIn s K now := by
      rw [selectIn, List.mem_filter]
      refine ⟨hr, ?_⟩
      rw [Bool.and_eq_true_iff]
      exact ⟨by rw [hrk]; simpa using hkK, hvis⟩
    cases hf : (selectIn s K now).find? (fun r' => r'.key == k) with
    | none =>
        rw [List.find?_eq_none] at hf
        exact absurd (by simp [hrk] : (r.key == k) = true) (by simpa using hf r hrin)
    | some r' =>
        have hr'k : r'.key = k := by simpa using List.find?_some hf
        have hr's : r' ∈ s := (List.mem_filter.mp (List.mem_of_find?_eq_some hf)).1
        have heq : r' = r :=
          List.inj_on_of_nodup_map hnd hr's hr (by rw [hr'k, hrk])
        rw [heq]
  · intro k hkK hnone
    rw [mapGet_foldl_rows _ _ _ _ hndrows]
    have hf : (selectIn s K now).find? (fun r => r.key == k) = none := by
      rw [List.find?_eq_none]
      intro x hx hbx
      have hxs : x ∈ s := (List.mem_filter.mp hx).1
      have hxvis : sqlVisible now x = true :=
        (Bool.and_eq_true_iff.mp (List.mem_filter.mp hx).2).2
      have hxk : x.key = k := by simpa using hbx
      rw [hnone x hxs hxk] at hxvis
      cases hxvis
    rw [hf, mapGet_foldl_init]
    simp [hkK]

/-- When every row's stored metadata parses, the batch metadata loop is a
pure fold. -/
theorem mdLoop_ok (rows : List Row) (m₀ : List (String × MdEntry))
    (hmd : ∀ r ∈ rows, isOkE (metaParse r.metadata) = true) :
    mdLoop rows m₀ =
      .ok (rows.foldl (fun m r => mapSet m r.key ⟨some r.value, mdOf r⟩) m₀) := by
  induction rows generalizing m₀ with
  | nil => rfl
  | cons r rows ih =>
      have h := hmd r (by simp)
      cases hm : metaParse r.metadata with
      | error e => rw [hm] at h; cases h
      | ok md =>
          have hmd' : mdOf r = md := by simp [mdOf, hm]
          simp only [mdLoop, hm, List.foldl_cons, hmd']
          exact ih _ (fun r' hr' => hmd r' (by simp [hr']))

/-- C1: the relational batch `get` returns a map whose key set is exactly
the requested keys — each requested key maps to its stored value when an
unexpired record exists and to `null` otherwise — and the batch
`getWithMetadata` does the same with the parsed metadata alongside, so
absence is distinguishable from an empty stored value. -/
theorem c1_batch_reads_total_map (s : Store) (K : List String) (now : Int)
    (hnd : (s.map (·.key)).Nodup)
    (hmd : ∀ r ∈ s, isOkE (metaParse r.metadata) = true) :
    (∀ k, (mapGet (batchGetD1 s K now) k).isSome = true ↔ k ∈ K) ∧
    (∀ k r, r ∈ s → r.key = k → sqlVisible now r = true → k ∈ K →
      mapGet (batchGetD1 s K now) k = some (some r.value)) ∧
    (∀ k, k ∈ K → (∀ r ∈ s, r.key = k → sqlVisible now r = false) →
      mapGet (batchGetD1 s K now) k = some none) ∧
    (∃ mm, batchGetWithMetadataD1 s K now = .ok mm ∧
      (∀ k, (mapGet mm k).isSome = true ↔ k ∈ K) ∧
      (∀ k r, r ∈ s → r.key = k → sqlVisible now r = true → k ∈ K →
        ∃ md, metaParse r.metadata = .ok md ∧ mapGet mm k = some ⟨some r.value, md⟩) ∧
      (∀ k, k ∈ K → (∀ r ∈ s, r.key = k → sqlVisible now r = false) →
        mapGet mm k = some ⟨none, .null⟩)) := by
  obtain ⟨h1, h2, h3⟩ :=
    batch_map_spec (fun r => some r.value) (none : Option String) s K now hnd
  obtain ⟨g1, g2, g3⟩ :=
    batch_map_spec (fun r => (⟨some r.value, mdOf r⟩ : MdEntry)) (⟨none, .null⟩ : MdEntry)
      s K now hnd
  refine ⟨h1, h2, h3, ?_⟩
  refine ⟨_, ?_, g1, ?_, g3⟩
  · unfold batchGetWithMetadataD1
    exact mdLoop_ok _ _ (fun r hr => hmd r (List.mem_filter.mp hr).1)
  · intro k r hr hrk hvis hkK
    have hok := hmd r hr
    cases hm : metaParse r.metadata with
    | error e => rw [hm] at hok; cases hok
    | ok md =>
        refine ⟨md, rfl, ?_⟩
        have := g2 k r hr hrk hvis hkK
        rw [this]
        simp [mdOf, hm]

/-- Closed witness for `c1_batch_reads_total_map`: a store holding the
empty string under `"a"`; the batch `get` over `["a", "zz"]` answers
`some ""` for `"a"` and `null` for the never-written `"zz"`. -/
theorem c1_batch_reads_total_map_witness :
    (mapGet (batchGetD1 [⟨"a", "", none, none⟩] ["a", "zz"] 0) "a").isSome = true ∧
    mapGet (batchGetD1 [⟨"a", "", none, none⟩] ["a", "zz"] 0) "a" = some (some "") ∧
    mapGet (batchGetD1 [⟨"a", "", none, none⟩] ["a", "zz"] 0) "zz" = some none :=
  have thm := c1_batch_reads_total_map [⟨"a", "", none, none⟩] ["a", "zz"] 0
    (by decide) (by decide)
  ⟨(thm.1 "a").mpr (by decide),
   thm.2.1 "a" ⟨"a", "", none, none⟩ (by decide) rfl rfl (by decide),
   thm.2.2.1 "zz" (by decide) (by decide)⟩

/-! ## Machinery for the `list` claims. -/

/-- The ordered matching rows are a permutation of the filtered store. -/
theorem sortedRows_perm (s : Store) (pfx : String) (now : Int) :
    List.Perm (sortedRows s pfx now)
      (s.filter (fun r => likeStr (pfx ++ "%") r.key && sqlVisible now r)) :=
  List.perm_insertionSort _ _

/-- Membership in the ordered matching rows. -/
theorem mem_sortedRows {s : Store} {pfx : String} {now : Int} {r : Row} :
    r ∈ sortedRows s pfx now ↔
      r ∈ s ∧ likeStr (pfx ++ "%") r.key = true ∧ sqlVisible now r = true := by
  rw [(sortedRows_perm s pfx now).mem_iff, List.mem_filter, Bool.and_eq_true_iff]

/-- The ordered matching rows are sorted by key. -/
theorem sortedRows_sorted (s : Store) (pfx : String) (now : Int) :
    (sortedRows s pfx now).Sorted (fun a b : Row => a.key ≤ b.key) :=
  List.sorted_insertionSort _ _

/-- When every row's metadata parses, the item mapping is a pure map. -/
theorem mapM_rowToItem_ok (l : List Row)
    (h : ∀ r ∈ l, isOkE (metaParseOpt r.metadata) = true) :
    l.mapM rowToItem = .ok (l.map rowToItemOk) := by
  induction l with
  | nil => rfl
  | cons r l ih =>
      have hr := h r (by simp)
      have hro : rowToItem r = .ok (rowToItemOk r) := by
        unfold rowToItem rowToItemOk
        cases hm : metaParseOpt r.metadata with
        | error e => rw [hm] at hr; cases hr
        | ok md => simp [hm]
      rw [List.mapM_cons, hro, ih (fun r' h' => h r' (by simp [h']))]
      rfl

/-- Full computation of `list` for a positive explicit limit and a cursor
that parses to a natural offset: the `limit + 1` fetch past the offset, the
`slice(0, limit)` of it, the has-more flag from comparing the fetched count
with `limit`, and the `offset + limit` resumption cursor. -/
theorem listD1_spec (s : Store) (now : Int) (pfxo : Option String) (L : Int)
    (cur : Option String) (off : Nat)
    (hL : 1 ≤ L)
    (hcur : parseCursorJS cur = .obj [("offset", .num (intRat off))])
    (hmd : ∀ r ∈ s, isOkE (metaParseOpt r.metadata) = true) :
    listD1 s now ⟨pfxo, some L, cur⟩ =
      .ok ⟨((((sortedRows s (pfxo.getD "") now).drop off).take (L + 1).toNat).take L.toNat).map
            rowToItemOk,
          !decide (((((sortedRows s (pfxo.getD "") now).drop off).take (L + 1).toNat).length : Int) > L),
          if (((((sortedRows s (pfxo.getD "") now).drop off).take (L + 1).toNat).length : Int) > L) then
            some (createCursor ((off : Int) + L))
          else none⟩ := by
  have hLne : L ≠ 0 := by omega
  have hden : (intRat (off : Int)).den = 1 := by simp [intRat, Rat.mkRat_one]
  have hnum : (intRat (off : Int)).num = (off : Int) := by simp [intRat, Rat.mkRat_one]
  have hdes : jsDestructure (JSVal.obj [("offset", JSVal.num (intRat (off : Int)))]) "offset" =
      .ok (some (JSVal.num (intRat (off : Int)))) := rfl
  have h0a : (0 : Int) ≤ L + 1 := by omega
  have h0b : (0 : Int) ≤ L := by omega
  have hsub : ∀ r ∈ (((sortedRows s (pfxo.getD "") now).drop off).take (L + 1).toNat).take L.toNat,
      isOkE (metaParseOpt r.metadata) = true := by
    intro r hr
    have h1 : r ∈ sortedRows s (pfxo.getD "") now :=
      List.drop_subset _ _ (List.take_subset _ _ (List.take_subset _ _ hr))
    exact hmd r (mem_sortedRows.mp h1).1
  simp only [listD1, hcur, hdes, if_pos hden, if_pos hLne, hnum, Int.toNat_natCast,
    sqlFetch, jsSlice, if_pos h0a, if_pos h0b]
  rw [mapM_rowToItem_ok _ hsub]
  simp [decide_eq_true_eq]

/-- C4: with page size `limit ≥ 1` (and any cursor parsing to offset
`off`), `list` fetches `limit + 1` rows past the offset; when more than
`limit` matching rows remain it returns exactly `limit` keys,
`list_complete = false` and a cursor encoding `off + limit`; otherwise it
returns all remaining matching rows with `list_complete = true` and no
cursor; and a call without `limit` behaves exactly as `limit = 1000`. -/
theorem c4_pagination (s : Store) (now : Int) (pfxo : Option String) (L : Int)
    (cur : Option String) (off : Nat)
    (hL : 1 ≤ L)
    (hcur : parseCursorJS cur = .obj [("offset", .num (intRat off))])
    (hmd : ∀ r ∈ s, isOkE (metaParseOpt r.metadata) = true) :
    (∃ res, listD1 s now ⟨pfxo, some L, cur⟩ = .ok res ∧
      (((sortedRows s (pfxo.getD "") now).length : Int) - off > L →
        (res.keys.length : Int) = L ∧ res.list_complete = false ∧
        res.cursor = some (createCursor ((off : Int) + L))) ∧
      (((sortedRows s (pfxo.getD "") now).length : Int) - off ≤ L →
        res.keys = ((sortedRows s (pfxo.getD "") now).drop off).map rowToItemOk ∧
        res.list_complete = true ∧ res.cursor = none)) ∧
    (∀ o2 : ListOptions, o2.limit = none →
      listD1 s now o2 = listD1 s now ⟨o2.pfx, some 1000, o2.cursor⟩) := by
  constructor
  · refine ⟨_, listD1_spec s now pfxo L cur off hL hcur hmd, ?_, ?_⟩
    all_goals
      set sorted := sortedRows s (pfxo.getD "") now with hsorted
      have hdlen : (sorted.drop off).length = sorted.length - off := List.length_drop _ _
      have hflen : ((sorted.drop off).take (L + 1).toNat).length =
          min ((L + 1).toNat) (sorted.length - off) := by
        rw [List.length_take, hdlen]
    · intro hmore
      have hfeq : ((sorted.drop off).take (L + 1).toNat).length = (L + 1).toNat := by
        rw [hflen]; omega
      have hgt : (((L + 1).toNat : Int) > L) := by omega
      refine ⟨?_, ?_, ?_⟩
      · simp only [List.length_map, List.length_take, hfeq]
        omega
      · rw [hfeq]
        simp [hgt]
      · rw [hfeq, if_pos hgt]
    · intro hle
      have hd1 : (sorted.drop off).length ≤ (L + 1).toNat := by omega
      have hd2 : (sorted.drop off).length ≤ L.toNat := by omega
      have htake1 : (sorted.drop off).take (L + 1).toNat = sorted.drop off :=
        List.take_of_length_le hd1
      have hngt : ¬(((sorted.drop off).length : Int) > L) := by omega
      refine ⟨?_, ?_, ?_⟩
      · rw [htake1, List.take_of_length_le hd2]
      · rw [htake1]
        simp only [Bool.not_eq_true', decide_eq_false_iff_not]
        exact hngt
      · rw [htake1, if_neg hngt]
  · intro o2 h2
    obtain ⟨p2, l2, c2⟩ := o2
    simp only at h2
    subst h2
    simp [listD1]

/-- Closed witness for `c4_pagination`: the empty store lists completely
with no cursor under an explicit limit of 5. -/
theorem c4_pagination_witness :
    listD1 [] 0 ⟨none, some 5, none⟩ = .ok ⟨[], true, none⟩ := by
  obtain ⟨⟨res, heq, _, hle⟩, _⟩ :=
    c4_pagination [] 0 none 5 none 0 (by omega) rfl (by simp)
  obtain ⟨hkeys, hcomp, hcur⟩ := hle (by norm_num [sortedRows])
  obtain ⟨ks, cp, cu⟩ := res
  simp only at hkeys hcomp hcur
  rw [heq, hkeys, hcomp, hcur]
  simp [sortedRows]

/-- C5 counterexample: listing is driven by SQL `LIKE prefix || '%'`, not
literal prefixing.  The prefix `"a_"` returns the key `"ab"` (the `_`
wildcard matches `b`) and the prefix `"A"` returns `"ab"` too (SQLite's
default `LIKE` is ASCII-case-insensitive), although neither string is a
literal prefix of `"ab"`. -/
theorem c5_literal_prefix_counterexample :
    listD1 [⟨"ab", "v", none, none⟩] 0 ⟨some "a_", some 10, none⟩ =
      .ok ⟨[⟨"ab", none, none⟩], true, none⟩ ∧
    isLeadOf "a_" "ab" = false ∧
    listD1 [⟨"ab", "v", none, none⟩] 0 ⟨some "A", some 10, none⟩ =
      .ok ⟨[⟨"ab", none, none⟩], true, none⟩ ∧
    isLeadOf "A" "ab" = false := by
  refine ⟨?_, rfl, ?_, rfl⟩ <;>
    simp [listD1, parseCursorJS, jsDestructure, objGet, intRat, Rat.mkRat_one, sqlFetch,
      sortedRows, likeStr, likeMatch, likeChar, asciiLower, sqlVisible, jsSlice,
      rowToItem, metaParseOpt, List.mapM, List.mapM.loop]

/-- Shared computation: for a page large enough to hold them, the listed
names are exactly the unexpired keys matching `prefix || '%'` under SQLite
`LIKE`, sorted by name. -/
theorem listD1_names (s : Store) (now : Int) (pfx : String) (L : Int)
    (hL : 1 ≤ L)
    (hcount : ((s.filter (fun r => likeStr (pfx ++ "%") r.key && sqlVisible now r)).length : Int) ≤ L)
    (hmd : ∀ r ∈ s, isOkE (metaParseOpt r.metadata) = true) :
    ∃ res, listD1 s now ⟨some pfx, some L, none⟩ = .ok res ∧
      res.keys.map (·.name) = (sortedRows s pfx now).map (·.key) ∧
      List.Sorted (· ≤ ·) (res.keys.map (·.name)) ∧
      (∀ k, k ∈ res.keys.map (·.name) ↔
        ∃ r ∈ s, r.key = k ∧ likeStr (pfx ++ "%") k = true ∧ sqlVisible now r = true) := by
  have hslen : ((sortedRows s pfx now).length : Int) ≤ L := by
    rw [(sortedRows_perm s pfx now).length_eq]
    exact hcount
  have hspec := listD1_spec s now (some pfx) L none 0 hL rfl hmd
  simp only [Option.getD_some, List.drop_zero] at hspec
  have ht1 : (sortedRows s pfx now).take (L + 1).toNat = sortedRows s pfx now :=
    List.take_of_length_le (by omega)
  have ht2 : (sortedRows s pfx now).take L.toNat = sortedRows s pfx now :=
    List.take_of_length_le (by omega)
  simp only [ht1, ht2] at hspec
  have hnames : (((sortedRows s pfx now).map rowToItemOk).map (·.name)) =
      (sortedRows s pfx now).map (·.key) := by
    rw [List.map_map]; rfl
  refine ⟨_, hspec, hnames, ?_, ?_⟩
  · rw [hnames]
    have hs := sortedRows_sorted s pfx now
    unfold List.Sorted at hs ⊢
    rw [List.pairwise_map]
    exact hs
  · intro k
    rw [hnames, List.mem_map]
    constructor
    · rintro ⟨r, hr, hkr⟩
      obtain ⟨hrs, hlike, hvis⟩ := mem_sortedRows.mp hr
      exact ⟨r, hrs, hkr.symm ▸ ⟨rfl, by rwa [hkr] at hlike, hvis⟩⟩
    · rintro ⟨r, hrs, hkr, hlike, hvis⟩
      exact ⟨r, mem_sortedRows.mpr ⟨hrs, by rwa [← hkr] at hlike, hvis⟩, hkr⟩

/-- C5 as amended: for a page large enough to hold them, the listed names
are exactly the unexpired keys matching the SQL pattern `prefix || '%'`
under SQLite `LIKE` semantics (`_` and `%` wildcards, ASCII case folding) —
not literal prefixing — returned sorted lexicographically by name. -/
theorem c5_like_semantics_amended (s : Store) (now : Int) (pfx : String) (L : Int)
    (hL : 1 ≤ L)
    (hcount : ((s.filter (fun r => likeStr (pfx ++ "%") r.key && sqlVisible now r)).length : Int) ≤ L)
    (hmd : ∀ r ∈ s, isOkE (metaParseOpt r.metadata) = true) :
    ∃ res, listD1 s now ⟨some pfx, some L, none⟩ = .ok res ∧
      res.keys.map (·.name) = (sortedRows s pfx now).map (·.key) ∧
      List.Sorted (· ≤ ·) (res.keys.map (·.name)) ∧
      (∀ k, k ∈ res.keys.map (·.name) ↔
        ∃ r ∈ s, r.key = k ∧ likeStr (pfx ++ "%") k = true ∧ sqlVisible now r = true) :=
  listD1_names s now pfx L hL hcount hmd

/-- Closed witness for `c5_like_semantics_amended` on a one-row store and
the empty prefix. -/
theorem c5_like_semantics_amended_witness :
    ∃ res, listD1 [⟨"a", "v", none, none⟩] 0 ⟨some "", some 5, none⟩ = .ok res ∧
      res.keys.map (·.name) = (sortedRows [⟨"a", "v", none, none⟩] "" 0).map (·.key) ∧
      List.Sorted (· ≤ ·) (res.keys.map (·.name)) ∧
      (∀ k, k ∈ res.keys.map (·.name) ↔
        ∃ r ∈ [(⟨"a", "v", none, none⟩ : Row)], r.key = k ∧
          likeStr ("" ++ "%") k = true ∧ sqlVisible 0 r = true) :=
  c5_like_semantics_amended [⟨"a", "v", none, none⟩] 0 "" 5 (by omega)
    (by simp [likeStr, likeMatch, sqlVisible]) (by simp [metaParseOpt, isOkE])

/-- `find?` returns the unique satisfying element. -/
theorem find?_unique {α : Type} (p : α → Bool) (l : List α) (a : α)
    (ha : a ∈ l) (hpa : p a = true) (huniq : ∀ b ∈ l, p b = true → b = a) :
    l.find? p = some a := by
  induction l with
  | nil => cases ha
  | cons x l ih =>
      by_cases hx : p x = true
      · rw [List.find?_cons_of_pos _ hx, huniq x (by simp) hx]
      · rw [List.find?_cons_of_neg _ (by simp [hx])]
        rcases List.mem_cons.mp ha with h | h
        · subst h; exact absurd hpa hx
        · exact ih h (fun b hb hpb => huniq b (by simp [hb]) hpb)

/-- A bare `%` pattern matches every string. -/
theorem likeMatch_percent (s : List Char) : likeMatch ['%'] s = true := by
  induction s with
  | nil => simp [likeMatch]
  | cons c s ih => simp [likeMatch, ih]

/-- The two forms of the metadata parse succeed together. -/
theorem isOkE_metaParse (md : Option String) :
    isOkE (metaParse md) = isOkE (metaParseOpt md) := by
  unfold metaParse
  cases h : metaParseOpt md <;> simp [Except.map, isOkE]

/-- An invisible appended row is missed by `get` after the replace write. -/
theorem getD1_filter_append_invisible (s : Store) (k v : String) (md : Option String)
    (ex : Option Int) (now : Int)
    (hvis : sqlVisible now ⟨k, v, md, ex⟩ = false) :
    getD1 (s.filter (fun r => r.key ≠ k) ++ [⟨k, v, md, ex⟩]) k now = none := by
  unfold getD1
  rw [List.find?_append]
  have h1 : List.find? (fun r => r.key == k && sqlVisible now r)
      (s.filter (fun r => r.key ≠ k)) = none := by
    rw [List.find?_eq_none]
    intro x hx
    have hxk : x.key ≠ k := by simpa using (List.mem_filter.mp hx).2
    simp [hxk]
  rw [h1]
  simp [List.find?, hvis]

/-- C6: with an expiration timestamp `e` stored for key `k`, every read
path of the relational backend (single `get`, batch `get`, single
`getWithMetadata`, `list`) reports the record absent exactly when
`now ≥ e`, even though the row is still physically stored; and a write
with a TTL of `t > 0` seconds gets effective expiration `wnow + t`, so it
is visible immediately and absent once the clock reaches `wnow + t`. -/
theorem c6_read_time_expiry (s : Store) (k : String) (e now L : Int) (r : Row)
    (K : List String)
    (hmem : r ∈ s) (hkey : r.key = k) (hexp : r.expiration = some e)
    (hnd : (s.map (·.key)).Nodup)
    (hmd : ∀ r' ∈ s, isOkE (metaParseOpt r'.metadata) = true)
    (hK : k ∈ K) (hL1 : 1 ≤ L) (hLs : (s.length : Int) ≤ L) :
    (getD1 s k now = none ↔ e ≤ now) ∧
    (now < e → getD1 s k now = some r.value) ∧
    (mapGet (batchGetD1 s K now) k = some (if now < e then some r.value else none)) ∧
    (e ≤ now → getWithMetadataD1 s k now = .ok ⟨none, .null⟩) ∧
    (now < e → ∃ md, metaParse r.metadata = .ok md ∧
      getWithMetadataD1 s k now = .ok ⟨some r.value, md⟩) ∧
    (∃ res, listD1 s now ⟨some "", some L, none⟩ = .ok res ∧
      ((∃ item ∈ res.keys, item.name = k) ↔ now < e)) ∧
    (∀ (s' : Store) (k' v' : String) (wnow t : Int) (md : Option JSVal), 0 < t →
      getD1 (putD1 s' wnow k' v' (some ⟨none, some t, md⟩)) k' wnow = some v' ∧
      (∀ now', wnow + t ≤ now' →
        getD1 (putD1 s' wnow k' v' (some ⟨none, some t, md⟩)) k' now' = none)) := by
  have hvisr : sqlVisible now r = decide (now < e) := by
    unfold sqlVisible; rw [hexp]
  have huniq : ∀ r' ∈ s, r'.key = k → r' = r := fun r' h1 h2 =>
    List.inj_on_of_nodup_map hnd h1 hmem (by rw [h2, hkey])
  have hfind_pos : now < e →
      s.find? (fun r' => r'.key == k && sqlVisible now r') = some r := by
    intro h
    apply find?_unique _ _ r hmem
    · simp [hkey, hvisr, h]
    · intro b hb hpb
      have hbk : b.key = k := by simpa using (Bool.and_eq_true_iff.mp hpb).1
      exact huniq b hb hbk
  have hfind_neg : e ≤ now →
      s.find? (fun r' => r'.key == k && sqlVisible now r') = none := by
    intro h
    rw [List.find?_eq_none]
    intro x hx hpx
    have hxk : x.key = k := by simpa using (Bool.and_eq_true_iff.mp hpx).1
    have hxr := huniq x hx hxk
    subst hxr
    have hv := (Bool.and_eq_true_iff.mp hpx).2
    rw [hvisr] at hv
    simp at hv
    omega
  refine ⟨⟨?_, ?_⟩, ?_, ?_, ?_, ?_, ?_, ?_⟩
  · intro hnone
    by_contra hlt
    push_neg at hlt
    unfold getD1 at hnone
    rw [hfind_pos hlt] at hnone
    cases hnone
  · intro h
    unfold getD1
    rw [hfind_neg h]
    rfl
  · intro h
    unfold getD1
    rw [hfind_pos h]
    rfl
  · by_cases h : now < e
    · rw [if_pos h]
      exact (batch_map_spec (fun r' => some r'.value) none s K now hnd).2.1 k r hmem hkey
        (by rw [hvisr]; simp [h]) hK
    · rw [if_neg h]
      refine (batch_map_spec (fun r' => some r'.value) none s K now hnd).2.2 k hK ?_
      intro r' hr' hk'
      rw [huniq r' hr' hk', hvisr]
      simp
      omega
  · intro h
    unfold getWithMetadataD1
    rw [hfind_neg h]
  · intro h
    have hOk : isOkE (metaParse r.metadata) = true := by
      rw [isOkE_metaParse]; exact hmd r hmem
    cases hm : metaParse r.metadata with
    | error e2 => rw [hm] at hOk; cases hOk
    | ok md =>
        refine ⟨md, rfl, ?_⟩
        simp only [getWithMetadataD1, hfind_pos h, hm]
  · have hcount : ((s.filter
        (fun r' => likeStr ("" ++ "%") r'.key && sqlVisible now r')).length : Int) ≤ L := by
      have hle := List.length_filter_le
        (fun r' => likeStr ("" ++ "%") r'.key && sqlVisible now r') s
      omega
    obtain ⟨res, heq, hnames, hsort, hmemiff⟩ := listD1_names s now "" L hL1 hcount hmd
    refine ⟨res, heq, ?_⟩
    constructor
    · rintro ⟨item, hitem, hname⟩
      have hkin : k ∈ res.keys.map (·.name) := by
        rw [List.mem_map]; exact ⟨item, hitem, hname⟩
      obtain ⟨r', hr', hk', hlk, hvis⟩ := (hmemiff k).mp hkin
      rw [huniq r' hr' hk', hvisr] at hvis
      simpa using hvis
    · intro h
      have hkin : k ∈ res.keys.map (·.name) := by
        refine (hmemiff k).mpr ⟨r, hmem, hkey, ?_, by rw [hvisr]; simp [h]⟩
        have h1 : ("" ++ "%") = "%" := rfl
        rw [h1]
        unfold likeStr
        have h2 : ("%" : String).toList = ['%'] := rfl
        rw [h2]
        exact likeMatch_percent _
      obtain ⟨item, hitem, hname⟩ := List.mem_map.mp hkin
      exact ⟨item, hitem, hname⟩
  · intro s' k' v' wnow t md ht
    have htne : t ≠ 0 := by omega
    have hge : getExpiration wnow (some ⟨none, some t, md⟩) = some (wnow + t) := by
      simp [getExpiration, numTruthy, htne]
    constructor
    · simp only [putD1, hge]
      apply getD1_filter_append
      simp only [sqlVisible, decide_eq_true_eq]
      omega
    · intro now' hnow'
      simp only [putD1, hge]
      apply getD1_filter_append_invisible
      simp only [sqlVisible]
      simp only [decide_eq_false_iff_not]
      omega

/-- Closed witness for `c6_read_time_expiry`: a record expiring at 10 is
absent at `now = 10` and present at `now = 3`; a TTL-60 write at `wnow = 0`
is visible at 0 and absent at 60. -/
theorem c6_read_time_expiry_witness :
    getD1 [⟨"a", "v", none, some 10⟩] "a" 10 = none ∧
    getD1 [⟨"a", "v", none, some 10⟩] "a" 3 = some "v" ∧
    getD1 (putD1 [] 0 "a" "v" (some ⟨none, some 60, none⟩)) "a" 0 = some "v" ∧
    getD1 (putD1 [] 0 "a" "v" (some ⟨none, some 60, none⟩)) "a" 60 = none :=
  have h10 := c6_read_time_expiry [⟨"a", "v", none, some 10⟩] "a" 10 10 5
    ⟨"a", "v", none, some 10⟩ ["a"] (by decide) rfl rfl (by decide) (by decide)
    (by decide) (by omega) (by norm_num)
  have h3 := c6_read_time_expiry [⟨"a", "v", none, some 10⟩] "a" 10 3 5
    ⟨"a", "v", none, some 10⟩ ["a"] (by decide) rfl rfl (by decide) (by decide)
    (by decide) (by omega) (by norm_num)
  ⟨h10.1.mpr (by omega), h3.2.1 (by omega),
   (h10.2.2.2.2.2.2 [] "a" "v" 0 60 none (by omega)).1,
   (h10.2.2.2.2.2.2 [] "a" "v" 0 60 none (by omega)).2 60 (by omega)⟩

/-- Closed witness for `c8_bulk_partial_failure`. -/
theorem c8_bulk_partial_failure_witness :
    bulkWrite
      [⟨"user:1", .str "Alice", none, none, none⟩,
       ⟨".", .str "x", none, none, none⟩,
       ⟨"user:2", .str "Bob", none, none, none⟩] (fun _ _ => none) =
      ⟨false, 3, 2, 1,
        [⟨"user:1", true, none⟩, ⟨".", false, some "Invalid key"⟩, ⟨"user:2", true, none⟩],
        207⟩ :=
  (c8_bulk_partial_failure [] (fun _ _ => none)).2.2.2.2.2
